import Mathlib

/-
Verification development for the diagnostic / report-aggregation tooling of the
ai-file-sorter repository.

Shallow embedding of:
  - src/diagnostic_tool.py        (class DiagnosticTool, "the basic variant")
  - src/thorough_diagnostic.py    (class ThoroughDiagnosticTool, "the thorough variant")
  - src/test_aggregator.py        (class TestAggregator, "the Trend Analyzer")

Python strings stay Lean Strings; Python lists stay Lean Lists; Python dicts
(insertion ordered) are association lists; loaded JSON documents are values of
an explicit Json inductive; machine-independent integers are Nat; the one
percentage computation is carried out in the rationals.
-/

namespace AIFS

/-! ### Result model

DiagnosticResult (thorough_diagnostic.py, class DiagnosticResult): fields
name, status, message, details, recommendation, timestamp, category.  The
basic variant (diagnostic_tool.py, class DiagnosticResult) has the same
fields minus recommendation and category; embedding both in one structure,
with the extra fields defaulted, loses nothing because the basic tool never
reads them.  The wall-clock timestamp string is kept as an ordinary field. -/

structure DiagResult where
  name : String
  status : String
  message : String
  details : Option String := none
  recommendation : Option String := none
  category : String := "General"
  timestamp : String := ""
deriving Repr, DecidableEq

/-- Number of recorded results carrying a given status string.  Both report
generators compute their per-status statistics this way:
diagnostic_tool.py generate_report uses sum(1 for r in self.results if
r.status == X); thorough_diagnostic.py generate_json_report accumulates
stats_by_status[result.status] += 1 over self.results. -/
def countStatus (results : List DiagResult) (s : String) : Nat :=
  (results.filter (fun r => decide (r.status = s))).length

/-- Health verdict of thorough_diagnostic.py generate_json_report
(lines 2417-2428): FAIL count positive gives CRITICAL, else more than 5
warnings gives NEEDS ATTENTION, else any warning gives GOOD, else EXCELLENT. -/
def overallHealthThorough (failCount warningCount : Nat) : String :=
  if failCount > 0 then "CRITICAL"
  else if warningCount > 5 then "NEEDS ATTENTION"
  else if warningCount > 0 then "GOOD"
  else "EXCELLENT"

/-- Health verdict of diagnostic_tool.py generate_report (lines 823-834);
identical shape with warning threshold 3 instead of 5. -/
def overallHealthBasic (failCount warningCount : Nat) : String :=
  if failCount > 0 then "CRITICAL"
  else if warningCount > 3 then "NEEDS ATTENTION"
  else if warningCount > 0 then "GOOD"
  else "EXCELLENT"

/-- The thorough generator's verdict as a function of the recorded results:
the code derives fail_count and warning_count from self.results and feeds
them to the threshold cascade. -/
def reportHealthThorough (results : List DiagResult) : String :=
  overallHealthThorough (countStatus results "FAIL") (countStatus results "WARNING")

/-- The basic generator's verdict as a function of the recorded results. -/
def reportHealthBasic (results : List DiagResult) : String :=
  overallHealthBasic (countStatus results "FAIL") (countStatus results "WARNING")

/-! ### Thorough aggregator state

ThoroughDiagnosticTool keeps self.results (flat, execution order) and
self.categories, a defaultdict(list) mapping category name to the ordered
bucket of results recorded under it.  A defaultdict with insertion-ordered
keys is embedded as an association list; a fresh key is appended at the end,
matching first-use ordering of Python dict keys. -/

structure ThoroughState where
  results : List DiagResult
  categories : List (String × List DiagResult)
deriving Repr, DecidableEq

/-- Append a result to the bucket of the given category, creating the bucket
at the end on first use: self.categories[category].append(result). -/
def bucketsAdd : List (String × List DiagResult) → String → DiagResult →
    List (String × List DiagResult)
  | [], cat, r => [(cat, [r])]
  | (c, rs) :: rest, cat, r =>
    if c = cat then (c, rs ++ [r]) :: rest
    else (c, rs) :: bucketsAdd rest cat r

/-- One call to ThoroughDiagnosticTool.add_result, carrying the arguments the
probe passed (lines 119-127 of thorough_diagnostic.py). -/
structure AddCall where
  name : String
  status : String
  message : String
  details : Option String := none
  recommendation : Option String := none
  category : String := "General"
deriving Repr, DecidableEq

/-- The DiagnosticResult object constructed by add_result: the constructor
stores name, status, message, details, recommendation, and add_result then
sets result.category to the category argument. -/
def mkDiagResult (c : AddCall) : DiagResult :=
  { name := c.name, status := c.status, message := c.message,
    details := c.details, recommendation := c.recommendation,
    category := c.category }

/-- ThoroughDiagnosticTool.add_result: append the freshly built result to
self.results and to self.categories[category]. -/
def addResult (st : ThoroughState) (c : AddCall) : ThoroughState :=
  { results := st.results ++ [mkDiagResult c],
    categories := bucketsAdd st.categories c.category (mkDiagResult c) }

/-- The tool's state right after __init__: empty results, empty categories. -/
def initialState : ThoroughState := { results := [], categories := [] }

/-- State after a run consisting of the given sequence of add_result calls. -/
def runAddCalls (calls : List AddCall) : ThoroughState :=
  calls.foldl addResult initialState

/-- The bucket stored for a category (first matching key; keys built through
bucketsAdd are pairwise distinct); an absent category has the empty bucket. -/
def bucketOf : List (String × List DiagResult) → String → List DiagResult
  | [], _ => []
  | (c, rs) :: rest, cat => if c = cat then rs else bucketOf rest cat

/-- Sum of the sizes of all category buckets. -/
def bucketSizesSum (cats : List (String × List DiagResult)) : Nat :=
  (cats.map (fun b => b.2.length)).sum

/-- Append a status string to an accumulator of distinct statuses if unseen. -/
def insertNew (seen : List String) (s : String) : List String :=
  if s ∈ seen then seen else seen ++ [s]

/-- The distinct statuses occurring among the results, in first-seen order:
exactly the key order of the stats_by_status defaultdict the thorough
generator builds. -/
def statusKeys (results : List DiagResult) : List String :=
  results.foldl (fun acc r => insertNew acc r.status) []

/-- Sum over the distinct statuses of the per-status counts: the sum of the
values of the generator's by_status mapping. -/
def statusCountSum (results : List DiagResult) : Nat :=
  ((statusKeys results).map (fun s => countStatus results s)).sum

/-! ### Check runners

Both run_all_checks methods walk an ordered list of probe callables.  A probe
may record any number of results through add_result before returning,
raising, or being interrupted; the ProbeEnd tag captures how its invocation
ended, and the emitted field carries the results it recorded before that.
The Bool produced by a runner is true exactly when the process was terminated
through sys.exit(1), i.e. with a non-zero status. -/

inductive ProbeEnd where
  | normal
  | raises (msg : String) (trace : String)
  | interrupt
deriving Repr, DecidableEq

/-- One entry of the check_methods list of DiagnosticTool.run_all_checks:
a (check_name, check_method) pair. -/
structure NamedCheck where
  name : String
  emitted : List DiagResult
  outcome : ProbeEnd
deriving Repr, DecidableEq

/-- One entry of the check_methods list of
ThoroughDiagnosticTool.run_all_checks: a bare callable, no name. -/
structure ThoroughCheck where
  emitted : List DiagResult
  outcome : ProbeEnd
deriving Repr, DecidableEq

/-- The result DiagnosticTool.run_all_checks synthesizes in its
"except Exception" arm: add_result(f"check_name Check", "FAIL",
f"Check failed with error: str(e)", error_details) where error_details is
the captured traceback. -/
def basicErrorResult (checkName msg trace : String) : DiagResult :=
  { name := checkName ++ " Check", status := "FAIL",
    message := "Check failed with error: " ++ msg, details := some trace }

/-- The result DiagnosticTool.run_all_checks records in its
"except KeyboardInterrupt" arm before calling sys.exit(1). -/
def basicInterruptResult (checkName : String) : DiagResult :=
  { name := checkName ++ " Check", status := "FAIL",
    message := "Interrupted by user",
    details := some "Diagnostic was cancelled before completion" }

/-- DiagnosticTool.run_all_checks (lines 902-931): run the checks in order;
an Exception is converted to one synthesized FAIL result and the loop
continues; a KeyboardInterrupt records an interrupt FAIL result and the
process exits with status 1. -/
def runAllChecksBasic : List NamedCheck → List DiagResult × Bool
  | [] => ([], false)
  | c :: cs =>
    match c.outcome with
    | ProbeEnd.normal =>
      let rest := runAllChecksBasic cs
      (c.emitted ++ rest.1, rest.2)
    | ProbeEnd.raises msg trace =>
      let rest := runAllChecksBasic cs
      (c.emitted ++ [basicErrorResult c.name msg trace] ++ rest.1, rest.2)
    | ProbeEnd.interrupt =>
      (c.emitted ++ [basicInterruptResult c.name], true)

/-- The results one basic check contributes to the run, including the
synthesized FAIL result of the error arm when its probe raises. -/
def basicCheckResults (c : NamedCheck) : List DiagResult :=
  match c.outcome with
  | ProbeEnd.normal => c.emitted
  | ProbeEnd.raises msg trace => c.emitted ++ [basicErrorResult c.name msg trace]
  | ProbeEnd.interrupt => c.emitted ++ [basicInterruptResult c.name]

/-- ThoroughDiagnosticTool.run_all_checks (lines 2789-2800): an Exception is
only logged (no result is recorded) and the loop continues; a
KeyboardInterrupt is only logged and the process exits with status 1
(again no result is recorded). -/
def runAllChecksThorough : List ThoroughCheck → List DiagResult × Bool
  | [] => ([], false)
  | c :: cs =>
    match c.outcome with
    | ProbeEnd.normal =>
      let rest := runAllChecksThorough cs
      (c.emitted ++ rest.1, rest.2)
    | ProbeEnd.raises _ _ =>
      let rest := runAllChecksThorough cs
      (c.emitted ++ rest.1, rest.2)
    | ProbeEnd.interrupt =>
      (c.emitted, true)

/-! ### JSON documents

The Trend Analyzer consumes reports through json.load, so its inputs are
arbitrary JSON values, embedded as the Json inductive.  Numbers are kept as
integers: every number the analyzed fields carry is a count.  Json.beq is
structural equality, the embedding of the == Python applies to loaded JSON
values. -/

inductive Json where
  | null
  | bool (b : Bool)
  | num (n : Int)
  | str (s : String)
  | arr (elems : List Json)
  | obj (fields : List (String × Json))
deriving Repr

mutual

def Json.beq : Json → Json → Bool
  | Json.null, Json.null => true
  | Json.bool a, Json.bool b => a == b
  | Json.num a, Json.num b => a == b
  | Json.str a, Json.str b => a == b
  | Json.arr xs, Json.arr ys => Json.beqArr xs ys
  | Json.obj xs, Json.obj ys => Json.beqObj xs ys
  | _, _ => false

def Json.beqArr : List Json → List Json → Bool
  | [], [] => true
  | x :: xs, y :: ys => Json.beq x y && Json.beqArr xs ys
  | _, _ => false

def Json.beqObj : List (String × Json) → List (String × Json) → Bool
  | [], [] => true
  | (k, v) :: xs, (k2, v2) :: ys => k == k2 && Json.beq v v2 && Json.beqObj xs ys
  | _, _ => false

end

/-- First value stored under a key in an object's field list (JSON objects
loaded from Python's json module have unique keys). -/
def lookupField : List (String × Json) → String → Option Json
  | [], _ => none
  | (k, v) :: rest, key => if k = key then some v else lookupField rest key

/-- Key lookup on an object; none on any other value or an absent key. -/
def Json.get? : Json → String → Option Json
  | Json.obj fields, key => lookupField fields key
  | _, _ => none

/-- Python dict.get(key, fallback) on a loaded JSON object. -/
def Json.getD (j : Json) (key : String) (fallback : Json) : Json :=
  (j.get? key).getD fallback

/-! ### Trend Analyzer (test_aggregator.py, class TestAggregator)

The analyzer's field reads, exactly those the source performs on a loaded
report dict.  The load order of reports is the order of the input list. -/

/-- data.get('timestamp', '') — the value the analyzer reads as the run
timestamp (TestAggregator.analyze line 60 and _analyze_health_trend). -/
def tsJson (data : Json) : Json := data.getD "timestamp" (Json.str "")

/-- The sort key of TestAggregator.analyze line 60, as a string: report
timestamps are ISO strings per the report schema; a missing timestamp
contributes the empty string (the default of data.get('timestamp', '')). -/
def tsKey (data : Json) : String :=
  match data.get? "timestamp" with
  | some (Json.str s) => s
  | _ => ""

/-- data.get('summary', {}). -/
def summaryOf (data : Json) : Json := data.getD "summary" (Json.obj [])

/-- data.get('summary', {}).get('health', '') — the health value the trend
comparison of _analyze_health_trend reads (lines 116-117). -/
def healthOf (data : Json) : Json := (summaryOf data).getD "health" (Json.str "")

/-- data.get('results', []) — the flat result list the analyzer iterates;
the analyzer only ever iterates it, so a non-array value contributes no
results. -/
def resultsOf (data : Json) : List Json :=
  match data.getD "results" (Json.arr []) with
  | Json.arr elems => elems
  | _ => []

/-- TestAggregator._health_score (lines 128-136): the scores dict lookup with
default 0; any value other than the four known health strings scores 0. -/
def healthScore : Json → Nat
  | Json.str s =>
    if s = "EXCELLENT" then 4
    else if s = "GOOD" then 3
    else if s = "NEEDS ATTENTION" then 2
    else if s = "CRITICAL" then 1
    else 0
  | _ => 0

/-- The verdict printed by _analyze_health_trend (lines 121-126): first an
equality test on the two health values themselves, then the score
comparison.  Arguments in chronological order: first, then last. -/
def trendStatus (firstHealth lastHealth : Json) : String :=
  if Json.beq lastHealth firstHealth then "Stable"
  else if healthScore lastHealth > healthScore firstHealth then "Improving"
  else "Degrading"

/-- Lexicographic comparison of char lists by code point — the ordering
Python's < uses on str. -/
def charsLe : List Char → List Char → Bool
  | [], _ => true
  | _ :: _, [] => false
  | c :: cs, d :: ds =>
    if c < d then true
    else if d < c then false
    else charsLe cs ds

/-- Python string ≤ (lexicographic by code point). -/
def strLe (a b : String) : Bool := charsLe a.data b.data

/-- The comparison self.reports.sort(key=lambda r: r['data'].get('timestamp', ''))
sorts by. -/
def reportLE (a b : Json) : Prop := strLe (tsKey a) (tsKey b) = true

instance : DecidableRel reportLE :=
  fun a b => inferInstanceAs (Decidable (strLe (tsKey a) (tsKey b) = true))

/-- TestAggregator.analyze line 60: stable sort of the loaded reports by
timestamp key.  Python's sort is stable; insertion sort with a weak
inequality places earlier elements before later tied ones, which is the same
stable order. -/
def sortReports (loaded : List Json) : List Json :=
  List.insertionSort reportLE loaded

/-- The trend verdict of _analyze_health_trend (lines 115-126): requires
more than one report; reads the health of the first and of the last report
only. -/
def analyzeHealthTrend : List Json → Option String
  | [] => none
  | [_] => none
  | x :: y :: rest =>
    some (trendStatus (healthOf x) (healthOf ((y :: rest).getLastD y)))

/-- The composition the analyzer actually runs: sort, then trend. -/
def aggregatorTrend (loaded : List Json) : Option String :=
  analyzeHealthTrend (sortReports loaded)

/-! ### Common issues (_analyze_common_issues, lines 138-170) -/

/-- defaultdict(int) increment: bump the counter of a key, appending a fresh
key with count 1 at the end (Python dict keys keep first-seen order). -/
def bump : List (Json × Nat) → Json → List (Json × Nat)
  | [], key => [(key, 1)]
  | (k, n) :: rest, key =>
    if Json.beq k key then (k, n + 1) :: rest
    else (k, n) :: bump rest key

/-- result.get('status') == statusVal (the .get default is None). -/
def resultStatusIs (r : Json) (statusVal : String) : Bool :=
  Json.beq (r.getD "status" Json.null) (Json.str statusVal)

/-- result.get('name', 'Unknown'). -/
def resultName (r : Json) : Json := r.getD "name" (Json.str "Unknown")

/-- The warnings / failures counter of _analyze_common_issues: for each
loaded report, for each of its results with the given status, bump the
counter of the result's name. -/
def tallyStatus (reports : List Json) (statusVal : String) : List (Json × Nat) :=
  reports.foldl
    (fun acc data =>
      (resultsOf data).foldl
        (fun acc2 r => if resultStatusIs r statusVal then bump acc2 (resultName r) else acc2)
        acc)
    []

/-- The count stored for a name in a tally (0 when absent). -/
def tallyCount : List (Json × Nat) → Json → Nat
  | [], _ => 0
  | (k, n) :: rest, key => if Json.beq k key then n else tallyCount rest key

/-- Reference recount: occurrences of a name with a status across the
results of all loaded reports. -/
def occurrenceCount (reports : List Json) (statusVal : String) (nameVal : Json) : Nat :=
  ((reports.flatMap resultsOf).filter
    (fun r => resultStatusIs r statusVal && Json.beq (resultName r) nameVal)).length

/-- sorted(items, key=lambda x: -x[1]) orders descending by count. -/
def issueGE (a b : Json × Nat) : Prop := b.2 ≤ a.2

instance : DecidableRel issueGE :=
  fun a b => inferInstanceAs (Decidable (b.2 ≤ a.2))

/-- The stable descending sort of _analyze_common_issues. -/
def rankIssues (tally : List (Json × Nat)) : List (Json × Nat) :=
  List.insertionSort issueGE tally

/-- sorted(...)[:5] — at most the top five issues are reported. -/
def topIssues (tally : List (Json × Nat)) : List (Json × Nat) :=
  (rankIssues tally).take 5

/-- (count / len(self.reports)) * 100 — the reported percentage. -/
def issueRate (occurrences totalReports : Nat) : ℚ :=
  (occurrences : ℚ) / (totalReports : ℚ) * 100

/-! ### Feature status deltas (_analyze_feature_status, lines 205-251) -/

/-- Python dict assignment d[k] = v on an insertion-ordered dict: overwrite
the value of an existing key in place, else append. -/
def dictSet : List (Json × Json) → Json → Json → List (Json × Json)
  | [], k, v => [(k, v)]
  | (k0, v0) :: rest, k, v =>
    if Json.beq k0 k then (k0, v) :: rest
    else (k0, v0) :: dictSet rest k v

/-- Python dict lookup. -/
def dictGet? : List (Json × Json) → Json → Option Json
  | [], _ => none
  | (k, v) :: rest, key => if Json.beq k key then some v else dictGet? rest key

/-- The name-to-status lookup {r['name']: r['status'] for r in results}.
The source indexes the two keys directly (a result lacking one would raise);
the embedding reads them with a None default, and every theorem about it
instantiates results that carry both keys. -/
def buildLookup (results : List Json) : List (Json × Json) :=
  results.foldl
    (fun acc r => dictSet acc (r.getD "name" Json.null) (r.getD "status" Json.null))
    []

/-- TestAggregator._status_score (lines 253-261): OK 4, INFO 3, WARNING 2,
FAIL 1, anything else (SKIP included) 0. -/
def statusScore : Json → Nat
  | Json.str s =>
    if s = "OK" then 4
    else if s = "INFO" then 3
    else if s = "WARNING" then 2
    else if s = "FAIL" then 1
    else 0
  | _ => 0

/-- The loop body of _analyze_feature_status for one name of the latest
lookup: skip names absent from the previous lookup; when the status
changed, append the name to improved when its score strictly increased,
else to degraded. -/
def classifyStep (previousLookup : List (Json × Json)) (acc : List Json × List Json)
    (kv : Json × Json) : List Json × List Json :=
  match dictGet? previousLookup kv.1 with
  | none => acc
  | some prevStatus =>
    if Json.beq prevStatus kv.2 then acc
    else if statusScore kv.2 > statusScore prevStatus then (acc.1 ++ [kv.1], acc.2)
    else (acc.1, acc.2 ++ [kv.1])

/-- The improved / degraded lists accumulated over the names of the latest
lookup, in its iteration order. -/
def classifyDeltas (latestLookup previousLookup : List (Json × Json)) :
    List Json × List Json :=
  latestLookup.foldl (classifyStep previousLookup) ([], [])

/-- _analyze_feature_status on the result lists of the latest and the
previous report. -/
def featureStatus (latestResults previousResults : List Json) :
    List Json × List Json :=
  classifyDeltas (buildLookup latestResults) (buildLookup previousResults)

/-- The call site: latest = self.reports[-1], previous = self.reports[-2]
of the sorted report list; fewer than two reports classify nothing. -/
def analyzeFeatureStatus (sortedReports : List Json) : List Json × List Json :=
  match sortedReports.reverse with
  | latestData :: prevData :: _ => featureStatus (resultsOf latestData) (resultsOf prevData)
  | _ => ([], [])

/-! ### Models of two claim readings, for comparison with the code

These two definitions follow the specification's words, not the source; each
is compared against the corresponding source-derived function. -/

/-- Modelled from the spec: the claimed trend rule compares the health
ordinals of the first and the last report — equal ordinals Stable, strictly
greater last ordinal Improving, else Degrading. -/
def specTrendStatus (firstHealth lastHealth : Json) : String :=
  if healthScore lastHealth = healthScore firstHealth then "Stable"
  else if healthScore lastHealth > healthScore firstHealth then "Improving"
  else "Degrading"

/-- Modelled from the spec: the claimed per-check ranking, with SKIP (and
anything else outside the four ranked statuses) excluded from ranking
comparisons. -/
def rankedScore? : Json → Option Nat
  | Json.str s =>
    if s = "OK" then some 4
    else if s = "INFO" then some 3
    else if s = "WARNING" then some 2
    else if s = "FAIL" then some 1
    else none
  | _ => none

/-- Modelled from the spec: classify a common name as improved exactly when
its status ordinal strictly increased, degraded exactly when it strictly
decreased, with statuses outside the ranking never classified. -/
def specClassifyStep (previousLookup : List (Json × Json)) (acc : List Json × List Json)
    (kv : Json × Json) : List Json × List Json :=
  match dictGet? previousLookup kv.1 with
  | none => acc
  | some prevStatus =>
    match rankedScore? kv.2, rankedScore? prevStatus with
    | some c, some p =>
      if c > p then (acc.1 ++ [kv.1], acc.2)
      else if c < p then (acc.1, acc.2 ++ [kv.1])
      else acc
    | _, _ => acc

/-- Modelled from the spec: the claimed classification over the names of the
latest lookup. -/
def specClassifyDeltas (latestLookup previousLookup : List (Json × Json)) :
    List Json × List Json :=
  latestLookup.foldl (specClassifyStep previousLookup) ([], [])

/-- The improved-side selection the loop body of _analyze_feature_status
performs for one entry of the latest lookup; used to characterize the
accumulated improved list. -/
def improvedSel (previousLookup : List (Json × Json)) (kv : Json × Json) : Option Json :=
  match dictGet? previousLookup kv.1 with
  | none => none
  | some prevStatus =>
    if Json.beq prevStatus kv.2 then none
    else if statusScore kv.2 > statusScore prevStatus then some kv.1
    else none

/-- The degraded-side selection of the same loop body. -/
def degradedSel (previousLookup : List (Json × Json)) (kv : Json × Json) : Option Json :=
  match dictGet? previousLookup kv.1 with
  | none => none
  | some prevStatus =>
    if Json.beq prevStatus kv.2 then none
    else if statusScore kv.2 > statusScore prevStatus then none
    else some kv.1

/-! ### Report generators -/

/-- Optional strings serialize to null or a string. -/
def optJson : Option String → Json
  | some s => Json.str s
  | none => Json.null

/-- One entry of the results array of diagnostic_tool.py generate_report. -/
def resultJsonBasic (r : DiagResult) : Json :=
  Json.obj [("name", Json.str r.name), ("status", Json.str r.status),
            ("message", Json.str r.message), ("details", optJson r.details),
            ("timestamp", Json.str r.timestamp)]

/-- The JSON report dict built by DiagnosticTool.generate_report: top-level
timestamp, duration_seconds, platform, summary (total / ok / warning / fail /
info counts and the health verdict), and the flat results array.  The
duration and platform values are opaque inputs here. -/
def generate_report (timestampIso : String) (durationSeconds : Json)
    (platformInfo : Json) (results : List DiagResult) : Json :=
  Json.obj [
    ("timestamp", Json.str timestampIso),
    ("duration_seconds", durationSeconds),
    ("platform", platformInfo),
    ("summary", Json.obj [
      ("total", Json.num (results.length : Int)),
      ("ok", Json.num (countStatus results "OK" : Int)),
      ("warning", Json.num (countStatus results "WARNING" : Int)),
      ("fail", Json.num (countStatus results "FAIL" : Int)),
      ("info", Json.num (countStatus results "INFO" : Int)),
      ("health", Json.str (reportHealthBasic results))]),
    ("results", Json.arr (results.map resultJsonBasic))]

/-- dict(stats_by_status) of the thorough generator: per-status counts keyed
by status in first-seen order. -/
def statusTallyJson (results : List DiagResult) : Json :=
  Json.obj ((statusKeys results).map fun s => (s, Json.num (countStatus results s : Int)))

/-- One entry of a results_by_category array of
ThoroughDiagnosticTool.generate_json_report. -/
def resultJsonThorough (r : DiagResult) : Json :=
  Json.obj [("name", Json.str r.name), ("status", Json.str r.status),
            ("message", Json.str r.message), ("details", optJson r.details),
            ("recommendation", optJson r.recommendation),
            ("timestamp", Json.str r.timestamp)]

/-- One entry of the all_results array of generate_json_report (adds the
category field). -/
def resultJsonThoroughAll (r : DiagResult) : Json :=
  Json.obj [("name", Json.str r.name), ("category", Json.str r.category),
            ("status", Json.str r.status), ("message", Json.str r.message),
            ("details", optJson r.details),
            ("recommendation", optJson r.recommendation),
            ("timestamp", Json.str r.timestamp)]

/-- The JSON report dict built by ThoroughDiagnosticTool.generate_json_report
(lines 2430-2480): diagnostic_metadata (tool_version, timestamp,
duration_seconds, quick_mode), system_info, summary (total_checks,
by_status, by_category, overall_health), results_by_category, all_results.
There is no top-level timestamp, no summary.health, and no results key. -/
def generate_json_report (timestampIso : String) (durationSeconds : Json)
    (quickMode : Bool) (systemInfo : Json) (st : ThoroughState) : Json :=
  Json.obj [
    ("diagnostic_metadata", Json.obj [
      ("tool_version", Json.str "2.1"),
      ("timestamp", Json.str timestampIso),
      ("duration_seconds", durationSeconds),
      ("quick_mode", Json.bool quickMode)]),
    ("system_info", systemInfo),
    ("summary", Json.obj [
      ("total_checks", Json.num (st.results.length : Int)),
      ("by_status", statusTallyJson st.results),
      ("by_category", Json.obj (st.categories.map fun b =>
        (b.1, statusTallyJson b.2))),
      ("overall_health", Json.str (reportHealthThorough st.results))]),
    ("results_by_category", Json.obj (st.categories.map fun b =>
      (b.1, Json.arr (b.2.map resultJsonThorough)))),
    ("all_results", Json.arr (st.results.map resultJsonThoroughAll))]

/-! ## Theorems -/

/-- Json.beq is propositional equality. -/
theorem Json.beq_iff_eq : ∀ a b : Json, Json.beq a b = true ↔ a = b := by
  apply Json.beq.induct
    (motive_1 := fun a b => Json.beq a b = true ↔ a = b)
    (motive_2 := fun xs ys => Json.beqObj xs ys = true ↔ xs = ys)
    (motive_3 := fun xs ys => Json.beqArr xs ys = true ↔ xs = ys)
  · simp [Json.beq]
  · intro a b; simp [Json.beq]
  · intro a b; simp [Json.beq]
  · intro a b; simp [Json.beq]
  · intro xs ys ih; simp only [Json.beq]; rw [ih]; simp
  · intro xs ys ih; simp only [Json.beq]; rw [ih]; simp
  · intro t x h1 h2 h3 h4 h5 h6
    cases t <;> cases x <;> simp only [Json.beq] <;>
      first
        | exact (h1 rfl rfl).elim
        | exact (h2 _ _ rfl rfl).elim
        | exact (h3 _ _ rfl rfl).elim
        | exact (h4 _ _ rfl rfl).elim
        | exact (h5 _ _ rfl rfl).elim
        | exact (h6 _ _ rfl rfl).elim
        | simp
  · simp [Json.beqArr]
  · intro x xs y ys ih1 ih2
    simp only [Json.beqArr, Bool.and_eq_true]; rw [ih1, ih2]; simp
  · intro t x h1 h2
    cases t <;> cases x <;> simp only [Json.beqArr] <;>
      first
        | exact (h1 rfl rfl).elim
        | exact (h2 _ _ _ _ rfl rfl).elim
        | simp
  · simp [Json.beqObj]
  · intro k v xs k2 v2 ys ih1 ih2
    simp only [Json.beqObj, Bool.and_eq_true]; rw [ih1, ih2]
    simp [beq_iff_eq, and_assoc]
  · intro t x h1 h2
    cases t <;> cases x <;> simp only [Json.beqObj] <;>
      first
        | exact (h1 rfl rfl).elim
        | exact (h2 _ _ _ _ _ _ rfl rfl).elim
        | simp

/-- Json.beq fails exactly on distinct values. -/
theorem Json.beq_eq_false_iff (a b : Json) : Json.beq a b = false ↔ a ≠ b := by
  rw [← Bool.not_eq_true, not_iff_not]
  exact Json.beq_iff_eq a b

/-- Json.beq is reflexive. -/
theorem Json.beq_self (a : Json) : Json.beq a a = true :=
  (Json.beq_iff_eq a a).mpr rfl

/-- C2: the health verdict follows the exact priority order: any FAIL gives
CRITICAL; else more warnings than the threshold (5 thorough, 3 basic) gives
NEEDS ATTENTION; else any warning gives GOOD; else EXCELLENT.  The verdict
is a pure function of the FAIL and WARNING counts alone, so INFO and SKIP
counts never change it; and 0 FAIL with 6 WARNING under threshold 5 gives
NEEDS ATTENTION. -/
theorem health_verdict_priority :
    (∀ failCount warnCount : Nat, 0 < failCount →
      overallHealthThorough failCount warnCount = "CRITICAL" ∧
      overallHealthBasic failCount warnCount = "CRITICAL") ∧
    (∀ warnCount : Nat, 5 < warnCount →
      overallHealthThorough 0 warnCount = "NEEDS ATTENTION") ∧
    (∀ warnCount : Nat, 0 < warnCount → warnCount ≤ 5 →
      overallHealthThorough 0 warnCount = "GOOD") ∧
    overallHealthThorough 0 0 = "EXCELLENT" ∧
    (∀ warnCount : Nat, 3 < warnCount →
      overallHealthBasic 0 warnCount = "NEEDS ATTENTION") ∧
    (∀ warnCount : Nat, 0 < warnCount → warnCount ≤ 3 →
      overallHealthBasic 0 warnCount = "GOOD") ∧
    overallHealthBasic 0 0 = "EXCELLENT" ∧
    (∀ rs rs2 : List DiagResult,
      countStatus rs "FAIL" = countStatus rs2 "FAIL" →
      countStatus rs "WARNING" = countStatus rs2 "WARNING" →
      reportHealthThorough rs = reportHealthThorough rs2 ∧
      reportHealthBasic rs = reportHealthBasic rs2) ∧
    overallHealthThorough 0 6 = "NEEDS ATTENTION" := by
  refine ⟨?_, ?_, ?_, rfl, ?_, ?_, rfl, ?_, rfl⟩
  · intro f w h
    constructor <;> simp [overallHealthThorough, overallHealthBasic, h]
  · intro w h
    simp [overallHealthThorough, h]
  · intro w h1 h2
    simp [overallHealthThorough, h1, not_lt.mpr h2]
  · intro w h
    simp [overallHealthBasic, h]
  · intro w h1 h2
    simp [overallHealthBasic, h1, not_lt.mpr h2]
  · intro rs rs2 h1 h2
    unfold reportHealthThorough reportHealthBasic
    rw [h1, h2]
    exact ⟨rfl, rfl⟩

/-- C2 witness at concrete counts. -/
theorem health_verdict_priority_instance :
    overallHealthThorough 1 9 = "CRITICAL" ∧
    overallHealthThorough 0 6 = "NEEDS ATTENTION" ∧
    overallHealthThorough 0 2 = "GOOD" ∧
    overallHealthBasic 0 4 = "NEEDS ATTENTION" ∧
    overallHealthBasic 0 2 = "GOOD" ∧
    reportHealthThorough [] = reportHealthThorough [] :=
  ⟨(health_verdict_priority.1 1 9 (by decide)).1,
   health_verdict_priority.2.1 6 (by decide),
   health_verdict_priority.2.2.1 2 (by decide) (by decide),
   health_verdict_priority.2.2.2.2.1 4 (by decide),
   health_verdict_priority.2.2.2.2.2.1 2 (by decide) (by decide),
   (health_verdict_priority.2.2.2.2.2.2.2.1 [] [] rfl rfl).1⟩

/-- C9: occurrence counting in the common-issues analysis is per Result, not
per report: a single loaded report whose results list carries the same name
with status FAIL twice yields count 2, and the reported rate
count / reports * 100 is then 200 percent, exceeding 100; the
fraction-of-reports-containing-the-issue reading would have given 100. -/
theorem issue_rate_over_100 :
    tallyCount
      (tallyStatus
        [Json.obj [("results", Json.arr
          [Json.obj [("name", Json.str "X"), ("status", Json.str "FAIL")],
           Json.obj [("name", Json.str "X"), ("status", Json.str "FAIL")]])]]
        "FAIL")
      (Json.str "X") = 2 ∧
    issueRate 2 1 = 200 ∧ (100 : ℚ) < issueRate 2 1 ∧ issueRate 1 1 = 100 := by
  refine ⟨rfl, ?_, ?_, ?_⟩ <;> norm_num [issueRate]

/-- C1 counterexample: in the thorough runner a probe that raises leaves no
trace in the recorded results.  A run of a raising check followed by a
normal check records only the normal check's result: no additional FAIL
Result is synthesized, where the claim requires exactly one, named after
the check. -/
theorem thorough_runner_drops_probe_error :
    runAllChecksThorough
      [{ emitted := [], outcome := ProbeEnd.raises "boom" "Traceback: boom" },
       { emitted := [{ name := "Later", status := "OK", message := "fine" }],
         outcome := ProbeEnd.normal }]
      = ([{ name := "Later", status := "OK", message := "fine" }], false) ∧
    (runAllChecksThorough
      [{ emitted := [], outcome := ProbeEnd.raises "boom" "Traceback: boom" },
       { emitted := [{ name := "Later", status := "OK", message := "fine" }],
         outcome := ProbeEnd.normal }]).1.filter
      (fun r => decide (r.status = "FAIL")) = [] :=
  ⟨rfl, rfl⟩

/-- C1 (amended): in the basic runner, a raising probe yields exactly one
additional FAIL Result, named by appending " Check" to the check's name and
carrying the captured trace in details, and every later check still runs;
in the thorough runner the exception is only logged: later checks still
run but no Result is synthesized. -/
theorem runner_error_containment :
    (∀ checks : List NamedCheck, (∀ c ∈ checks, c.outcome ≠ ProbeEnd.interrupt) →
      runAllChecksBasic checks = (checks.flatMap basicCheckResults, false)) ∧
    (∀ (c : NamedCheck) (msg trace : String), c.outcome = ProbeEnd.raises msg trace →
      basicCheckResults c = c.emitted ++ [basicErrorResult c.name msg trace] ∧
      (basicErrorResult c.name msg trace).status = "FAIL" ∧
      (basicErrorResult c.name msg trace).name = c.name ++ " Check" ∧
      (basicErrorResult c.name msg trace).details = some trace) ∧
    (∀ checks : List ThoroughCheck, (∀ c ∈ checks, c.outcome ≠ ProbeEnd.interrupt) →
      runAllChecksThorough checks = (checks.flatMap ThoroughCheck.emitted, false)) := by
  refine ⟨?_, ?_, ?_⟩
  · intro checks h
    induction checks with
    | nil => rfl
    | cons c cs ih =>
      have hc : c.outcome ≠ ProbeEnd.interrupt := h c (List.mem_cons_self c cs)
      have hcs : ∀ d ∈ cs, d.outcome ≠ ProbeEnd.interrupt :=
        fun d hd => h d (List.mem_cons_of_mem c hd)
      cases ho : c.outcome with
      | normal =>
        simp [runAllChecksBasic, ho, ih hcs, basicCheckResults]
      | raises msg trace =>
        simp [runAllChecksBasic, ho, ih hcs, basicCheckResults]
      | interrupt => exact absurd ho hc
  · intro c msg trace h
    refine ⟨?_, rfl, rfl, rfl⟩
    simp [basicCheckResults, h]
  · intro checks h
    induction checks with
    | nil => rfl
    | cons c cs ih =>
      have hc : c.outcome ≠ ProbeEnd.interrupt := h c (List.mem_cons_self c cs)
      have hcs : ∀ d ∈ cs, d.outcome ≠ ProbeEnd.interrupt :=
        fun d hd => h d (List.mem_cons_of_mem c hd)
      cases ho : c.outcome with
      | normal => simp [runAllChecksThorough, ho, ih hcs]
      | raises msg trace => simp [runAllChecksThorough, ho, ih hcs]
      | interrupt => exact absurd ho hc

/-- C1 witness: a concrete basic run with one raising check. -/
theorem runner_error_containment_instance :
    runAllChecksBasic
      [{ name := "B", emitted := [], outcome := ProbeEnd.raises "boom" "tb" }]
      = ([basicErrorResult "B" "boom" "tb"], false) ∧
    basicCheckResults { name := "B", emitted := [], outcome := ProbeEnd.raises "boom" "tb" }
      = [basicErrorResult "B" "boom" "tb"] := by
  constructor
  · have h := runner_error_containment.1
      [{ name := "B", emitted := [], outcome := ProbeEnd.raises "boom" "tb" }]
      (by intro c hc; simp at hc; subst hc; decide)
    exact h.trans rfl
  · exact (runner_error_containment.2.1
      { name := "B", emitted := [], outcome := ProbeEnd.raises "boom" "tb" }
      "boom" "tb" rfl).1

/-- C4 counterexample: on a user interrupt the thorough runner exits with
non-zero status but records no FAIL Result at all: the run of one
interrupted check produces an empty result list, where the claim requires a
FAIL Result describing the interruption to be recorded first. -/
theorem thorough_interrupt_records_nothing :
    runAllChecksThorough [{ emitted := [], outcome := ProbeEnd.interrupt }]
      = ([], true) := rfl

/-- C4 (amended): on a user interrupt the basic runner records one FAIL
Result describing the interruption and then exits the process with non-zero
status, executing no further checks; the thorough runner exits with
non-zero status immediately without recording any Result; in both runners,
the interrupt is the only probe outcome that terminates the run. -/
theorem interrupt_semantics :
    (∀ (pre : List NamedCheck) (c : NamedCheck) (post : List NamedCheck),
      c.outcome = ProbeEnd.interrupt →
      (∀ d ∈ pre, d.outcome ≠ ProbeEnd.interrupt) →
      runAllChecksBasic (pre ++ c :: post)
        = (pre.flatMap basicCheckResults ++ (c.emitted ++ [basicInterruptResult c.name]),
           true)) ∧
    (∀ n : String,
      (basicInterruptResult n).status = "FAIL" ∧
      (basicInterruptResult n).name = n ++ " Check" ∧
      (basicInterruptResult n).message = "Interrupted by user") ∧
    (∀ (pre : List ThoroughCheck) (c : ThoroughCheck) (post : List ThoroughCheck),
      c.outcome = ProbeEnd.interrupt →
      (∀ d ∈ pre, d.outcome ≠ ProbeEnd.interrupt) →
      runAllChecksThorough (pre ++ c :: post)
        = (pre.flatMap ThoroughCheck.emitted ++ c.emitted, true)) ∧
    (∀ checks : List NamedCheck, (∀ c ∈ checks, c.outcome ≠ ProbeEnd.interrupt) →
      (runAllChecksBasic checks).2 = false) ∧
    (∀ checks : List ThoroughCheck, (∀ c ∈ checks, c.outcome ≠ ProbeEnd.interrupt) →
      (runAllChecksThorough checks).2 = false) := by
  refine ⟨?_, fun n => ⟨rfl, rfl, rfl⟩, ?_, ?_, ?_⟩
  · intro pre c post hc hpre
    induction pre with
    | nil => simp [runAllChecksBasic, hc]
    | cons d ds ih =>
      have hd : d.outcome ≠ ProbeEnd.interrupt := hpre d (List.mem_cons_self d ds)
      have hds : ∀ e ∈ ds, e.outcome ≠ ProbeEnd.interrupt :=
        fun e he => hpre e (List.mem_cons_of_mem d he)
      cases hdo : d.outcome with
      | normal => simp [runAllChecksBasic, hdo, ih hds, basicCheckResults]
      | raises msg trace => simp [runAllChecksBasic, hdo, ih hds, basicCheckResults]
      | interrupt => exact absurd hdo hd
  · intro pre c post hc hpre
    induction pre with
    | nil => simp [runAllChecksThorough, hc]
    | cons d ds ih =>
      have hd : d.outcome ≠ ProbeEnd.interrupt := hpre d (List.mem_cons_self d ds)
      have hds : ∀ e ∈ ds, e.outcome ≠ ProbeEnd.interrupt :=
        fun e he => hpre e (List.mem_cons_of_mem d he)
      cases hdo : d.outcome with
      | normal => simp [runAllChecksThorough, hdo, ih hds]
      | raises msg trace => simp [runAllChecksThorough, hdo, ih hds]
      | interrupt => exact absurd hdo hd
  · intro checks h
    rw [runner_error_containment.1 checks h]
  · intro checks h
    rw [runner_error_containment.2.2 checks h]

/-- C4 witness: one normal check, then an interrupted one; a trailing check
never runs. -/
theorem interrupt_semantics_instance :
    runAllChecksBasic
      [{ name := "A", emitted := [{ name := "A1", status := "OK", message := "m" }],
         outcome := ProbeEnd.normal },
       { name := "B", emitted := [], outcome := ProbeEnd.interrupt },
       { name := "C", emitted := [{ name := "C1", status := "OK", message := "m" }],
         outcome := ProbeEnd.normal }]
      = ([{ name := "A1", status := "OK", message := "m" }, basicInterruptResult "B"],
         true) := by
  have h := interrupt_semantics.1
    [{ name := "A", emitted := [{ name := "A1", status := "OK", message := "m" }],
       outcome := ProbeEnd.normal }]
    { name := "B", emitted := [], outcome := ProbeEnd.interrupt }
    [{ name := "C", emitted := [{ name := "C1", status := "OK", message := "m" }],
       outcome := ProbeEnd.normal }]
    rfl
    (by intro d hd; simp at hd; subst hd; decide)
  exact h.trans rfl

/-- Unfolding the per-status count over a freshly recorded result. -/
theorem countStatus_cons (r : DiagResult) (rs : List DiagResult) (s : String) :
    countStatus (r :: rs) s = (if r.status = s then 1 else 0) + countStatus rs s := by
  unfold countStatus
  rw [List.filter_cons]
  by_cases h : r.status = s
  · simp [h]
    omega
  · simp [h]

/-- Membership in the first-seen accumulation of distinct statuses. -/
theorem mem_foldl_insertNew (l : List String) (acc : List String) (s : String) :
    s ∈ l.foldl insertNew acc ↔ s ∈ acc ∨ s ∈ l := by
  induction l generalizing acc with
  | nil => simp
  | cons x xs ih =>
    rw [List.foldl_cons, ih]
    by_cases hx : x ∈ acc
    · have hsx : s = x → s ∈ acc := fun h => h ▸ hx
      simp only [insertNew, if_pos hx, List.mem_cons]
      tauto
    · simp only [insertNew, if_neg hx, List.mem_append, List.mem_singleton, List.mem_cons]
      tauto

/-- The first-seen accumulation of distinct statuses has no duplicates. -/
theorem nodup_foldl_insertNew (l : List String) (acc : List String) (h : acc.Nodup) :
    (l.foldl insertNew acc).Nodup := by
  induction l generalizing acc with
  | nil => exact h
  | cons x xs ih =>
    rw [List.foldl_cons]
    apply ih
    by_cases hx : x ∈ acc
    · simpa [insertNew, hx]
    · simp [insertNew, hx, List.nodup_append, h]

/-- statusKeys as a fold over the status projections. -/
theorem statusKeys_eq_foldl (rs : List DiagResult) :
    statusKeys rs = (rs.map (fun r => r.status)).foldl insertNew [] := by
  rw [List.foldl_map]
  rfl

/-- Over a duplicate-free key list containing a status, the indicator of
that status sums to exactly one. -/
theorem sum_indicator_nodup (K : List String) (t : String) (hn : K.Nodup)
    (ht : t ∈ K) :
    (K.map (fun s => if t = s then 1 else 0)).sum = 1 := by
  induction K with
  | nil => cases ht
  | cons k K ih =>
    rw [List.map_cons, List.sum_cons]
    rcases List.mem_cons.mp ht with h | h
    · subst h
      rw [if_pos rfl]
      have hz : (K.map (fun s => if t = s then 1 else 0)).sum = 0 := by
        apply List.sum_eq_zero
        intro x hx
        obtain ⟨s, hs, rfl⟩ := List.mem_map.mp hx
        have hts : t ≠ s := fun e => (List.nodup_cons.mp hn).1 (e ▸ hs)
        simp [hts]
      omega
    · have hk : t ≠ k := fun e => (List.nodup_cons.mp hn).1 (e ▸ h)
      rw [if_neg hk, ih (List.nodup_cons.mp hn).2 h]

/-- Sums of pointwise sums split. -/
theorem sum_map_add_split (K : List String) (f g : String → Nat) :
    (K.map (fun s => f s + g s)).sum = (K.map f).sum + (K.map g).sum := by
  induction K with
  | nil => rfl
  | cons k K ih =>
    simp [ih]
    omega

/-- Per-status counts over any duplicate-free key list covering all statuses
present sum to the number of results. -/
theorem sum_countStatus_of_keys (rs : List DiagResult) (K : List String)
    (hn : K.Nodup) (hmem : ∀ r ∈ rs, r.status ∈ K) :
    (K.map (fun s => countStatus rs s)).sum = rs.length := by
  induction rs with
  | nil =>
    have hz : ∀ x ∈ K.map (fun s => countStatus ([] : List DiagResult) s), x = 0 := by
      intro x hx
      obtain ⟨s, _, rfl⟩ := List.mem_map.mp hx
      rfl
    simpa using List.sum_eq_zero hz
  | cons r rs ih =>
    simp only [countStatus_cons]
    rw [sum_map_add_split, sum_indicator_nodup K r.status hn (hmem r (List.mem_cons_self r rs)),
        ih (fun d hd => hmem d (List.mem_cons_of_mem r hd))]
    simp [Nat.add_comm]

/-- The by_status counts of any result list sum to its length. -/
theorem statusCountSum_eq_length (rs : List DiagResult) :
    statusCountSum rs = rs.length := by
  unfold statusCountSum
  refine sum_countStatus_of_keys rs (statusKeys rs) ?_ ?_
  · rw [statusKeys_eq_foldl]
    exact nodup_foldl_insertNew _ _ List.nodup_nil
  · intro r hr
    rw [statusKeys_eq_foldl, mem_foldl_insertNew]
    exact Or.inr (List.mem_map_of_mem _ hr)

/-- Adding to a category bucket grows the total bucket size by one. -/
theorem bucketSizesSum_bucketsAdd (cats : List (String × List DiagResult))
    (cat : String) (r : DiagResult) :
    bucketSizesSum (bucketsAdd cats cat r) = bucketSizesSum cats + 1 := by
  induction cats with
  | nil => simp [bucketsAdd, bucketSizesSum]
  | cons b rest ih =>
    obtain ⟨c, rs⟩ := b
    by_cases h : c = cat <;>
      simp [bucketsAdd, h, bucketSizesSum] at ih ⊢ <;> omega

/-- Adding to a category appends to exactly that category's bucket. -/
theorem bucketOf_bucketsAdd_self (cats : List (String × List DiagResult))
    (cat : String) (r : DiagResult) :
    bucketOf (bucketsAdd cats cat r) cat = bucketOf cats cat ++ [r] := by
  induction cats with
  | nil => simp [bucketsAdd, bucketOf]
  | cons b rest ih =>
    obtain ⟨c, rs⟩ := b
    by_cases h : c = cat <;> simp [bucketsAdd, bucketOf, h, ih]

/-- Adding to a category leaves every other category's bucket unchanged. -/
theorem bucketOf_bucketsAdd_other (cats : List (String × List DiagResult))
    (cat other : String) (r : DiagResult) (h : other ≠ cat) :
    bucketOf (bucketsAdd cats cat r) other = bucketOf cats other := by
  induction cats with
  | nil => simp [bucketsAdd, bucketOf, Ne.symm h]
  | cons b rest ih =>
    obtain ⟨c, rs⟩ := b
    by_cases hc : c = cat
    · subst hc
      simp [bucketsAdd, bucketOf, Ne.symm h, h]
    · by_cases hco : c = other <;> simp [bucketsAdd, bucketOf, hc, hco, h, ih]

/-- The size balance between the flat result list and the category buckets
is preserved by any sequence of add_result calls. -/
theorem foldl_addResult_size_inv (calls : List AddCall) (st : ThoroughState)
    (h : st.results.length = bucketSizesSum st.categories) :
    (calls.foldl addResult st).results.length
      = bucketSizesSum (calls.foldl addResult st).categories := by
  induction calls generalizing st with
  | nil => exact h
  | cons c cs ih =>
    rw [List.foldl_cons]
    refine ih _ ?_
    simp [addResult, bucketSizesSum_bucketsAdd, h]

/-- Further add_result calls only ever append to the flat result list. -/
theorem foldl_addResult_append_results (more : List AddCall) (st : ThoroughState) :
    ∃ tail : List DiagResult, (more.foldl addResult st).results = st.results ++ tail := by
  induction more generalizing st with
  | nil => exact ⟨[], by simp⟩
  | cons c cs ih =>
    obtain ⟨t, ht⟩ := ih (addResult st c)
    refine ⟨[mkDiagResult c] ++ t, ?_⟩
    rw [List.foldl_cons, ht]
    simp [addResult]

/-- C8: after any sequence of add_result calls, the total number of recorded
results equals the sum of the per-status counts and equals the sum of the
category bucket sizes; one call appends the result to the flat
execution-order list and to exactly its own category's bucket, growing the
total bucket size by exactly one; and recorded results are never removed:
any longer call sequence extends the flat list of any prefix. -/
theorem aggregator_count_invariants :
    (∀ rs : List DiagResult, statusCountSum rs = rs.length) ∧
    (∀ calls : List AddCall,
      (runAddCalls calls).results.length = statusCountSum (runAddCalls calls).results ∧
      (runAddCalls calls).results.length = bucketSizesSum (runAddCalls calls).categories) ∧
    (∀ (st : ThoroughState) (c : AddCall),
      (addResult st c).results = st.results ++ [mkDiagResult c] ∧
      bucketOf (addResult st c).categories c.category
        = bucketOf st.categories c.category ++ [mkDiagResult c] ∧
      (∀ other : String, other ≠ c.category →
        bucketOf (addResult st c).categories other = bucketOf st.categories other) ∧
      bucketSizesSum (addResult st c).categories = bucketSizesSum st.categories + 1) ∧
    (∀ calls more : List AddCall, ∃ tail : List DiagResult,
      (runAddCalls (calls ++ more)).results = (runAddCalls calls).results ++ tail) := by
  refine ⟨statusCountSum_eq_length, ?_, ?_, ?_⟩
  · intro calls
    exact ⟨(statusCountSum_eq_length _).symm,
           foldl_addResult_size_inv calls initialState rfl⟩
  · intro st c
    exact ⟨rfl, bucketOf_bucketsAdd_self st.categories c.category (mkDiagResult c),
           fun other h => bucketOf_bucketsAdd_other st.categories c.category other
             (mkDiagResult c) h,
           bucketSizesSum_bucketsAdd st.categories c.category (mkDiagResult c)⟩
  · intro calls more
    unfold runAddCalls
    rw [List.foldl_append]
    exact foldl_addResult_append_results more _

/-- C8 witness at a concrete call. -/
theorem aggregator_count_invariants_instance :
    bucketOf (addResult initialState
        { name := "N", status := "OK", message := "m" }).categories "Other"
      = bucketOf initialState.categories "Other" ∧
    statusCountSum (runAddCalls [{ name := "N", status := "OK", message := "m" }]).results
      = 1 := by
  constructor
  · exact (aggregator_count_invariants.2.2.1 initialState
      { name := "N", status := "OK", message := "m" }).2.2.1 "Other" (by decide)
  · rw [aggregator_count_invariants.1]
    rfl

/-- C10: the analyzer's health-score lookup is total with default 0: any
value other than the four recognized health strings, the empty string of a
missing health included, scores 0, strictly below CRITICAL's score 1;
consequently a sorted report list whose first report has an unrecognized or
missing health and whose last report has any recognized health yields the
trend verdict Improving. -/
theorem health_score_total_trend :
    (∀ h : Json, h ≠ Json.str "EXCELLENT" → h ≠ Json.str "GOOD" →
      h ≠ Json.str "NEEDS ATTENTION" → h ≠ Json.str "CRITICAL" →
      healthScore h = 0) ∧
    healthScore (Json.str "CRITICAL") = 1 ∧
    (∀ loaded : List Json, aggregatorTrend loaded = analyzeHealthTrend (sortReports loaded)) ∧
    (∀ (x y : Json) (rest : List Json),
      healthScore (healthOf x) = 0 →
      0 < healthScore (healthOf ((y :: rest).getLastD y)) →
      analyzeHealthTrend (x :: y :: rest) = some "Improving") := by
  refine ⟨?_, rfl, fun _ => rfl, ?_⟩
  · intro h h1 h2 h3 h4
    cases h with
    | str s =>
      have e1 : s ≠ "EXCELLENT" := fun e => h1 (congrArg Json.str e)
      have e2 : s ≠ "GOOD" := fun e => h2 (congrArg Json.str e)
      have e3 : s ≠ "NEEDS ATTENTION" := fun e => h3 (congrArg Json.str e)
      have e4 : s ≠ "CRITICAL" := fun e => h4 (congrArg Json.str e)
      simp [healthScore, e1, e2, e3, e4]
    | null => rfl
    | bool b => rfl
    | num n => rfl
    | arr xs => rfl
    | obj fs => rfl
  · intro x y rest h0 hpos
    have heq : analyzeHealthTrend (x :: y :: rest)
        = some (trendStatus (healthOf x) (healthOf ((y :: rest).getLastD y))) := rfl
    rw [heq]
    generalize healthOf ((y :: rest).getLastD y) = z at hpos
    have hne : Json.beq z (healthOf x) = false := by
      rw [Json.beq_eq_false_iff]
      intro he
      rw [he, h0] at hpos
      exact absurd hpos (by omega)
    simp [trendStatus, hne, h0, hpos]

/-- C10 witness: first report health unrecognized, last CRITICAL. -/
theorem health_score_total_trend_instance :
    healthScore (Json.str "WEIRD") = 0 ∧
    analyzeHealthTrend
      [Json.obj [("summary", Json.obj [("health", Json.str "WEIRD")])],
       Json.obj [("summary", Json.obj [("health", Json.str "CRITICAL")])]]
      = some "Improving" := by
  constructor
  · refine health_score_total_trend.1 (Json.str "WEIRD") ?_ ?_ ?_ ?_ <;>
      (intro e; injection e with e2; exact absurd e2 (by decide))
  · exact health_score_total_trend.2.2.2
      (Json.obj [("summary", Json.obj [("health", Json.str "WEIRD")])])
      (Json.obj [("summary", Json.obj [("health", Json.str "CRITICAL")])])
      [] rfl (by decide)

/-- C3 counterexample: the thorough generator stores the run timestamp under
diagnostic_metadata, but the Trend Analyzer reads the top-level timestamp
key, so reloading a thorough report yields the empty default instead of the
timestamp the generator wrote. -/
theorem thorough_report_roundtrip_mismatch :
    tsJson (generate_json_report "2024-01-01T00:00:00" (Json.num 0) false (Json.obj [])
        (runAddCalls [{ name := "Database File", status := "FAIL", message := "missing" }]))
      = Json.str "" ∧
    Json.str "" ≠ Json.str "2024-01-01T00:00:00" := by
  refine ⟨rfl, ?_⟩
  intro h
  have h2 : ("" : String) = "2024-01-01T00:00:00" := by injection h
  exact absurd h2 (by decide)

/-- C3 (amended): the round trip holds for the basic generator: every field
the analyzer reads from a reloaded basic report — the top-level timestamp,
the summary's health and its ok / warning / fail / total counts, and the
name and status of every entry of the flat results list — equals what
generate_report wrote.  For the thorough generator the schemas do not line
up: the analyzer's reads of the timestamp, the health and the results list
all come back as their defaults regardless of what the generator wrote. -/
theorem report_roundtrip :
    (∀ (ts : String) (dur plat : Json) (rs : List DiagResult),
      tsJson (generate_report ts dur plat rs) = Json.str ts ∧
      healthOf (generate_report ts dur plat rs) = Json.str (reportHealthBasic rs) ∧
      (summaryOf (generate_report ts dur plat rs)).getD "ok" (Json.num 0)
        = Json.num (countStatus rs "OK" : Int) ∧
      (summaryOf (generate_report ts dur plat rs)).getD "warning" (Json.num 0)
        = Json.num (countStatus rs "WARNING" : Int) ∧
      (summaryOf (generate_report ts dur plat rs)).getD "fail" (Json.num 0)
        = Json.num (countStatus rs "FAIL" : Int) ∧
      (summaryOf (generate_report ts dur plat rs)).getD "total" (Json.num 0)
        = Json.num (rs.length : Int) ∧
      (resultsOf (generate_report ts dur plat rs)).map (fun r => r.getD "name" Json.null)
        = rs.map (fun r => Json.str r.name) ∧
      (resultsOf (generate_report ts dur plat rs)).map (fun r => r.getD "status" Json.null)
        = rs.map (fun r => Json.str r.status)) ∧
    (∀ (ts : String) (dur : Json) (quick : Bool) (sysInfo : Json) (st : ThoroughState),
      tsJson (generate_json_report ts dur quick sysInfo st) = Json.str "" ∧
      healthOf (generate_json_report ts dur quick sysInfo st) = Json.str "" ∧
      resultsOf (generate_json_report ts dur quick sysInfo st) = []) := by
  constructor
  · intro ts dur plat rs
    refine ⟨rfl, rfl, rfl, rfl, rfl, rfl, ?_, ?_⟩
    · show (rs.map resultJsonBasic).map (fun r => r.getD "name" Json.null)
        = rs.map (fun r => Json.str r.name)
      rw [List.map_map]
      rfl
    · show (rs.map resultJsonBasic).map (fun r => r.getD "status" Json.null)
        = rs.map (fun r => Json.str r.status)
      rw [List.map_map]
      rfl
  · intro ts dur quick sysInfo st
    exact ⟨rfl, rfl, rfl⟩

/-- Lexicographic comparison is reflexive. -/
theorem charsLe_refl (l : List Char) : charsLe l l = true := by
  induction l with
  | nil => rfl
  | cons c cs ih => simp [charsLe, lt_irrefl, ih]

/-- Lexicographic comparison is total. -/
theorem charsLe_total (a b : List Char) : charsLe a b = true ∨ charsLe b a = true := by
  induction a generalizing b with
  | nil => exact Or.inl rfl
  | cons c cs ih =>
    cases b with
    | nil => exact Or.inr rfl
    | cons d ds =>
      rcases lt_trichotomy c d with h | h | h
      · exact Or.inl (by simp [charsLe, h])
      · subst h
        rcases ih ds with h2 | h2
        · exact Or.inl (by simp [charsLe, lt_irrefl, h2])
        · exact Or.inr (by simp [charsLe, lt_irrefl, h2])
      · exact Or.inr (by simp [charsLe, h])

/-- Lexicographic comparison is transitive. -/
theorem charsLe_trans (a b c : List Char) (h1 : charsLe a b = true)
    (h2 : charsLe b c = true) : charsLe a c = true := by
  induction a generalizing b c with
  | nil => rfl
  | cons x xs ih =>
    cases b with
    | nil => simp [charsLe] at h1
    | cons y ys =>
      cases c with
      | nil => simp [charsLe] at h2
      | cons z zs =>
        by_cases hxy : x < y
        · by_cases hyz : y < z
          · simp [charsLe, lt_trans hxy hyz]
          · by_cases hzy : z < y
            · simp [charsLe, hyz, hzy] at h2
            · have hy : y = z := le_antisymm (not_lt.mp hzy) (not_lt.mp hyz)
              subst hy
              simp [charsLe, hxy]
        · by_cases hyx : y < x
          · simp [charsLe, hxy, hyx] at h1
          · have hx : x = y := le_antisymm (not_lt.mp hyx) (not_lt.mp hxy)
            subst hx
            simp only [charsLe, lt_irrefl, if_neg (lt_irrefl x), if_false] at h1
            by_cases hxz : x < z
            · simp [charsLe, hxz]
            · by_cases hzx : z < x
              · simp [charsLe, hxz, hzx] at h2
              · have hz : x = z := le_antisymm (not_lt.mp hzx) (not_lt.mp hxz)
                subst hz
                simp only [charsLe, lt_irrefl, if_neg (lt_irrefl x), if_false] at h2 ⊢
                exact ih ys zs h1 h2

/-- Python string ≤ is total. -/
theorem strLe_total (a b : String) : strLe a b = true ∨ strLe b a = true :=
  charsLe_total a.data b.data

/-- Python string ≤ is transitive. -/
theorem strLe_trans (a b c : String) (h1 : strLe a b = true) (h2 : strLe b c = true) :
    strLe a c = true :=
  charsLe_trans a.data b.data c.data h1 h2

/-- Inserting a report whose key matches the filter: it lands in front of
every retained element, because every element it is placed after has a
strictly smaller key and is dropped by the filter. -/
theorem filter_orderedInsert_key (x : Json) (l : List Json) (k : String)
    (hx : tsKey x = k) :
    (List.orderedInsert reportLE x l).filter (fun d => decide (tsKey d = k))
      = x :: l.filter (fun d => decide (tsKey d = k)) := by
  induction l with
  | nil => simp [hx]
  | cons y ys ih =>
    by_cases hr : reportLE x y
    · simp [List.orderedInsert, hr, List.filter_cons, hx]
    · have hyk : ¬tsKey y = k := by
        intro e
        apply hr
        show strLe (tsKey x) (tsKey y) = true
        rw [hx, e]
        exact charsLe_refl _
      simp [List.orderedInsert, hr, List.filter_cons, hyk, ih]

/-- Inserting a report whose key misses the filter leaves the filter image
unchanged. -/
theorem filter_orderedInsert_ne (x : Json) (l : List Json) (k : String)
    (hx : ¬tsKey x = k) :
    (List.orderedInsert reportLE x l).filter (fun d => decide (tsKey d = k))
      = l.filter (fun d => decide (tsKey d = k)) := by
  induction l with
  | nil => simp [hx]
  | cons y ys ih =>
    by_cases hr : reportLE x y
    · simp [List.orderedInsert, hr, List.filter_cons, hx]
    · simp [List.orderedInsert, hr, List.filter_cons, ih]

/-- Stability of the report sort: reports sharing one timestamp key keep
their relative load order. -/
theorem sortReports_filter (loaded : List Json) (k : String) :
    (sortReports loaded).filter (fun d => decide (tsKey d = k))
      = loaded.filter (fun d => decide (tsKey d = k)) := by
  unfold sortReports
  induction loaded with
  | nil => rfl
  | cons x xs ih =>
    show (List.orderedInsert reportLE x (List.insertionSort reportLE xs)).filter _ = _
    by_cases hx : tsKey x = k
    · rw [filter_orderedInsert_key x _ k hx, ih]
      simp [List.filter_cons, hx]
    · rw [filter_orderedInsert_ne x _ k hx, ih]
      simp [List.filter_cons, hx]

/-- C5 counterexample: two loaded reports in timestamp order whose healths
are distinct unrecognized strings share the ordinal 0, yet the analyzer
reports Degrading: the code tests string equality, not ordinal equality,
before comparing scores, while the claim's rule (equal ordinals give
Stable) demands Stable here. -/
theorem trend_equal_ordinals_not_stable :
    aggregatorTrend
      [Json.obj [("timestamp", Json.str "2024-01-01"),
                 ("summary", Json.obj [("health", Json.str "MYSTERY")])],
       Json.obj [("timestamp", Json.str "2024-01-02"),
                 ("summary", Json.obj [("health", Json.str "ODD")])]]
      = some "Degrading" ∧
    healthScore (Json.str "MYSTERY") = healthScore (Json.str "ODD") ∧
    specTrendStatus (Json.str "MYSTERY") (Json.str "ODD") = "Stable" :=
  ⟨rfl, rfl, rfl⟩

/-- C5 (amended): the analyzer sorts loaded reports ascending by timestamp
key (missing timestamps key as the empty string, the minimum, so they sort
first) with ties keeping file-load order, and derives the trend from the
first and last sorted reports only; an equal pair of health values gives
Stable, an unequal pair with strictly greater last ordinal gives Improving,
and any other unequal pair gives Degrading; the chronological health
sequence EXCELLENT, GOOD, EXCELLENT gives Stable. -/
theorem trend_ordering :
    (∀ loaded : List Json, List.Sorted reportLE (sortReports loaded)) ∧
    (∀ (loaded : List Json) (k : String),
      (sortReports loaded).filter (fun d => decide (tsKey d = k))
        = loaded.filter (fun d => decide (tsKey d = k))) ∧
    (∀ d : Json, d.get? "timestamp" = none → tsKey d = "") ∧
    (∀ s : String, strLe "" s = true) ∧
    (∀ loaded : List Json, aggregatorTrend loaded = analyzeHealthTrend (sortReports loaded)) ∧
    (∀ (x y : Json) (rest : List Json),
      analyzeHealthTrend (x :: y :: rest)
        = some (trendStatus (healthOf x) (healthOf ((y :: rest).getLastD y)))) ∧
    (∀ firstHealth lastHealth : Json, lastHealth = firstHealth →
      trendStatus firstHealth lastHealth = "Stable") ∧
    (∀ firstHealth lastHealth : Json, lastHealth ≠ firstHealth →
      healthScore lastHealth > healthScore firstHealth →
      trendStatus firstHealth lastHealth = "Improving") ∧
    (∀ firstHealth lastHealth : Json, lastHealth ≠ firstHealth →
      ¬healthScore lastHealth > healthScore firstHealth →
      trendStatus firstHealth lastHealth = "Degrading") ∧
    aggregatorTrend
      [Json.obj [("timestamp", Json.str "2024-01-01"),
                 ("summary", Json.obj [("health", Json.str "EXCELLENT")])],
       Json.obj [("timestamp", Json.str "2024-01-02"),
                 ("summary", Json.obj [("health", Json.str "GOOD")])],
       Json.obj [("timestamp", Json.str "2024-01-03"),
                 ("summary", Json.obj [("health", Json.str "EXCELLENT")])]]
      = some "Stable" := by
  haveI htotal : IsTotal Json reportLE := ⟨fun a b => strLe_total (tsKey a) (tsKey b)⟩
  haveI htrans : IsTrans Json reportLE :=
    ⟨fun a b c h1 h2 => strLe_trans (tsKey a) (tsKey b) (tsKey c) h1 h2⟩
  refine ⟨?_, sortReports_filter, ?_, fun s => rfl, fun _ => rfl, fun _ _ _ => rfl,
          ?_, ?_, ?_, rfl⟩
  · intro loaded
    exact List.sorted_insertionSort reportLE loaded
  · intro d h
    simp [tsKey, h]
  · intro firstHealth lastHealth h
    simp [trendStatus, (Json.beq_iff_eq lastHealth firstHealth).mpr h]
  · intro firstHealth lastHealth h hgt
    simp [trendStatus, (Json.beq_eq_false_iff lastHealth firstHealth).mpr h, hgt]
  · intro firstHealth lastHealth h hgt
    simp [trendStatus, (Json.beq_eq_false_iff lastHealth firstHealth).mpr h, hgt]

/-- C5 witness at concrete health pairs and a concrete missing timestamp. -/
theorem trend_ordering_instance :
    tsKey (Json.obj []) = "" ∧
    trendStatus (Json.str "GOOD") (Json.str "GOOD") = "Stable" ∧
    trendStatus (Json.str "CRITICAL") (Json.str "EXCELLENT") = "Improving" ∧
    trendStatus (Json.str "EXCELLENT") (Json.str "CRITICAL") = "Degrading" := by
  refine ⟨trend_ordering.2.2.1 (Json.obj []) rfl,
          trend_ordering.2.2.2.2.2.2.1 (Json.str "GOOD") (Json.str "GOOD") rfl,
          trend_ordering.2.2.2.2.2.2.2.1 (Json.str "CRITICAL") (Json.str "EXCELLENT") ?_
            (by decide),
          trend_ordering.2.2.2.2.2.2.2.2.1 (Json.str "EXCELLENT") (Json.str "CRITICAL") ?_
            (by decide)⟩
  · intro e
    have h2 : ("EXCELLENT" : String) = "CRITICAL" := by injection e
    exact absurd h2 (by decide)
  · intro e
    have h2 : ("CRITICAL" : String) = "EXCELLENT" := by injection e
    exact absurd h2 (by decide)

/-- One step of the delta loop appends the two selector outputs. -/
theorem classifyStep_eq (prevL : List (Json × Json)) (acc : List Json × List Json)
    (kv : Json × Json) :
    classifyStep prevL acc kv
      = (acc.1 ++ (improvedSel prevL kv).toList,
         acc.2 ++ (degradedSel prevL kv).toList) := by
  unfold classifyStep improvedSel degradedSel
  cases hg : dictGet? prevL kv.1 with
  | none => simp
  | some p =>
    by_cases hb : Json.beq p kv.2 = true
    · simp [hb]
    · by_cases hs : statusScore kv.2 > statusScore p <;> simp [hb, hs]

/-- The delta fold accumulates the selector images of the processed
entries, preserving their order. -/
theorem classifyDeltas_aux (prevL : List (Json × Json)) (l : List (Json × Json))
    (acc : List Json × List Json) :
    l.foldl (classifyStep prevL) acc
      = (acc.1 ++ l.filterMap (improvedSel prevL),
         acc.2 ++ l.filterMap (degradedSel prevL)) := by
  induction l generalizing acc with
  | nil => simp
  | cons kv l ih =>
    rw [List.foldl_cons, ih, classifyStep_eq]
    cases himp : improvedSel prevL kv <;> cases hdeg : degradedSel prevL kv <;>
      simp [List.filterMap_cons, himp, hdeg]

/-- The improved and degraded lists are the selector images of the latest
lookup. -/
theorem classifyDeltas_eq (latestL prevL : List (Json × Json)) :
    classifyDeltas latestL prevL
      = (latestL.filterMap (improvedSel prevL), latestL.filterMap (degradedSel prevL)) := by
  unfold classifyDeltas
  rw [classifyDeltas_aux]
  simp

/-- Inversion of a successful improved-side selection. -/
theorem improvedSel_eq_some (prevL : List (Json × Json)) (kv : Json × Json) (m : Json)
    (h : improvedSel prevL kv = some m) :
    m = kv.1 ∧ ∃ p, dictGet? prevL kv.1 = some p ∧ Json.beq p kv.2 = false ∧
      statusScore kv.2 > statusScore p := by
  unfold improvedSel at h
  cases hg : dictGet? prevL kv.1 with
  | none => rw [hg] at h; cases h
  | some p =>
    rw [hg] at h
    dsimp only at h
    by_cases hb : Json.beq p kv.2 = true
    · rw [if_pos hb] at h; cases h
    · rw [if_neg hb] at h
      by_cases hs : statusScore kv.2 > statusScore p
      · rw [if_pos hs] at h
        injection h with h
        exact ⟨h.symm, p, rfl, Bool.eq_false_iff.mpr hb, hs⟩
      · rw [if_neg hs] at h; cases h

/-- Inversion of a successful degraded-side selection. -/
theorem degradedSel_eq_some (prevL : List (Json × Json)) (kv : Json × Json) (m : Json)
    (h : degradedSel prevL kv = some m) :
    m = kv.1 ∧ ∃ p, dictGet? prevL kv.1 = some p ∧ Json.beq p kv.2 = false ∧
      statusScore kv.2 ≤ statusScore p := by
  unfold degradedSel at h
  cases hg : dictGet? prevL kv.1 with
  | none => rw [hg] at h; cases h
  | some p =>
    rw [hg] at h
    dsimp only at h
    by_cases hb : Json.beq p kv.2 = true
    · rw [if_pos hb] at h; cases h
    · rw [if_neg hb] at h
      by_cases hs : statusScore kv.2 > statusScore p
      · rw [if_pos hs] at h; cases h
      · rw [if_neg hs] at h
        injection h with h
        exact ⟨h.symm, p, rfl, Bool.eq_false_iff.mpr hb, not_lt.mp hs⟩

/-- A successful dict lookup returns a stored entry. -/
theorem dictGet?_mem (l : List (Json × Json)) (k v : Json)
    (h : dictGet? l k = some v) : (k, v) ∈ l := by
  induction l with
  | nil => cases h
  | cons kv0 rest ih =>
    obtain ⟨k0, v0⟩ := kv0
    unfold dictGet? at h
    by_cases hb : Json.beq k0 k = true
    · rw [if_pos hb] at h
      injection h with h
      have hk : k0 = k := (Json.beq_iff_eq k0 k).mp hb
      subst hk
      subst h
      exact List.mem_cons_self _ _
    · rw [if_neg hb] at h
      exact List.mem_cons_of_mem _ (ih h)

/-- A dict lookup fails exactly when no stored key matches. -/
theorem dictGet?_eq_none_iff (l : List (Json × Json)) (k : Json) :
    dictGet? l k = none ↔ ∀ kv ∈ l, kv.1 ≠ k := by
  induction l with
  | nil => simp [dictGet?]
  | cons kv0 rest ih =>
    obtain ⟨k0, v0⟩ := kv0
    unfold dictGet?
    by_cases hb : Json.beq k0 k = true
    · have hk : k0 = k := (Json.beq_iff_eq k0 k).mp hb
      subst hk
      simp [hb]
    · have hne : k0 ≠ k := fun e => hb ((Json.beq_iff_eq k0 k).mpr e)
      simp [hb, ih, hne]

/-- Under duplicate-free keys the stored value at a key is unique. -/
theorem dictGet?_unique (l : List (Json × Json)) (k c : Json)
    (hn : (l.map Prod.fst).Nodup) (h : dictGet? l k = some c) :
    ∀ kv ∈ l, kv.1 = k → kv.2 = c := by
  induction l with
  | nil => intro kv hkv; cases hkv
  | cons kv0 rest ih =>
    obtain ⟨k0, v0⟩ := kv0
    rw [List.map_cons] at hn
    obtain ⟨h1, h2⟩ := List.nodup_cons.mp hn
    intro kv hkv hk
    unfold dictGet? at h
    by_cases hb : Json.beq k0 k = true
    · have hk0 : k0 = k := (Json.beq_iff_eq k0 k).mp hb
      rw [if_pos hb] at h
      injection h with h
      subst h
      rcases List.mem_cons.mp hkv with he | hm
      · rw [he]
      · exfalso
        apply h1
        have hmm : kv.1 ∈ rest.map Prod.fst := List.mem_map.mpr ⟨kv, hm, rfl⟩
        rw [hk, ← hk0] at hmm
        exact hmm
    · rw [if_neg hb] at h
      rcases List.mem_cons.mp hkv with he | hm
      · exfalso
        apply hb
        apply (Json.beq_iff_eq k0 k).mpr
        rw [← hk, he]
      · exact ih h2 h kv hm hk

/-- The keys after a dict assignment are the old keys plus possibly the new
one. -/
theorem mem_dictSet_fst (l : List (Json × Json)) (k v m : Json) :
    m ∈ (dictSet l k v).map Prod.fst ↔ m ∈ l.map Prod.fst ∨ m = k := by
  induction l with
  | nil => simp [dictSet]
  | cons kv0 rest ih =>
    obtain ⟨k0, v0⟩ := kv0
    unfold dictSet
    by_cases hb : Json.beq k0 k = true
    · have hk : k0 = k := (Json.beq_iff_eq k0 k).mp hb
      subst hk
      simp [hb, List.map_cons, List.mem_cons]
      tauto
    · simp [hb, List.map_cons, List.mem_cons, ih]
      tauto

/-- Dict assignment preserves duplicate-free keys. -/
theorem nodup_dictSet_fst (l : List (Json × Json)) (k v : Json)
    (hn : (l.map Prod.fst).Nodup) :
    ((dictSet l k v).map Prod.fst).Nodup := by
  induction l with
  | nil => simp [dictSet]
  | cons kv0 rest ih =>
    obtain ⟨k0, v0⟩ := kv0
    rw [List.map_cons] at hn
    obtain ⟨h1, h2⟩ := List.nodup_cons.mp hn
    unfold dictSet
    by_cases hb : Json.beq k0 k = true
    · rw [if_pos hb, List.map_cons]
      exact List.nodup_cons.mpr ⟨h1, h2⟩
    · rw [if_neg hb, List.map_cons]
      refine List.nodup_cons.mpr ⟨?_, ih h2⟩
      rw [mem_dictSet_fst]
      rintro (hm | he)
      · exact h1 hm
      · exact hb ((Json.beq_iff_eq k0 k).mpr he)

/-- The name-to-status lookup keeps duplicate-free keys throughout its
construction. -/
theorem nodup_buildLookup_aux (results : List Json) (acc : List (Json × Json))
    (hn : (acc.map Prod.fst).Nodup) :
    ((results.foldl
      (fun acc r => dictSet acc (r.getD "name" Json.null) (r.getD "status" Json.null))
      acc).map Prod.fst).Nodup := by
  induction results generalizing acc with
  | nil => exact hn
  | cons r rest ih =>
    rw [List.foldl_cons]
    exact ih _ (nodup_dictSet_fst _ _ _ hn)

/-- The name-to-status lookup has duplicate-free keys. -/
theorem nodup_buildLookup (results : List Json) :
    ((buildLookup results).map Prod.fst).Nodup := by
  unfold buildLookup
  exact nodup_buildLookup_aux results [] List.nodup_nil

/-- C6 counterexample: a check named X whose status moves from OK to SKIP is
classified as degraded by the code (SKIP scores 0, strictly below every
ranked status), while under the claim's rule, with SKIP excluded from
ranking, the check is not classified at all. -/
theorem skip_status_participates_in_ranking :
    featureStatus
      [Json.obj [("name", Json.str "X"), ("status", Json.str "SKIP")]]
      [Json.obj [("name", Json.str "X"), ("status", Json.str "OK")]]
      = ([], [Json.str "X"]) ∧
    specClassifyDeltas
      (buildLookup [Json.obj [("name", Json.str "X"), ("status", Json.str "SKIP")]])
      (buildLookup [Json.obj [("name", Json.str "X"), ("status", Json.str "OK")]])
      = ([], []) :=
  ⟨rfl, rfl⟩

/-- C6 (amended): the delta analysis uses only the two most recent reports
of the sorted order; statuses are ranked FAIL 1 < WARNING 2 < INFO 3 < OK 4
with every other status — SKIP included — scoring 0 and so taking part in
the comparisons below every ranked status; for every name in both lookups,
the name is classified improved exactly when its status changed and its
score strictly increased, and degraded exactly when its status changed and
its score did not increase; an unchanged status is never classified, and a
name present in only one of the two lookups is ignored. -/
theorem feature_deltas :
    (∀ (sortedReports : List Json) (latestData prevData : Json) (older : List Json),
      sortedReports.reverse = latestData :: prevData :: older →
      analyzeFeatureStatus sortedReports
        = featureStatus (resultsOf latestData) (resultsOf prevData)) ∧
    (∀ results : List Json, ((buildLookup results).map Prod.fst).Nodup) ∧
    (∀ (latestL prevL : List (Json × Json)) (k c p : Json),
      (latestL.map Prod.fst).Nodup →
      dictGet? latestL k = some c → dictGet? prevL k = some p →
      (k ∈ (classifyDeltas latestL prevL).1 ↔
        c ≠ p ∧ statusScore p < statusScore c) ∧
      (k ∈ (classifyDeltas latestL prevL).2 ↔
        c ≠ p ∧ statusScore c ≤ statusScore p)) ∧
    (∀ (latestL prevL : List (Json × Json)) (k : Json),
      dictGet? latestL k = none ∨ dictGet? prevL k = none →
      k ∉ (classifyDeltas latestL prevL).1 ∧ k ∉ (classifyDeltas latestL prevL).2) ∧
    (statusScore (Json.str "FAIL") = 1 ∧ statusScore (Json.str "WARNING") = 2 ∧
     statusScore (Json.str "INFO") = 3 ∧ statusScore (Json.str "OK") = 4 ∧
     statusScore (Json.str "SKIP") = 0) := by
  refine ⟨?_, nodup_buildLookup, ?_, ?_, rfl, rfl, rfl, rfl, rfl⟩
  · intro sortedReports latestData prevData older h
    unfold analyzeFeatureStatus
    rw [h]
  · intro latestL prevL k c p hn hL hP
    rw [classifyDeltas_eq]
    constructor
    · simp only [List.mem_filterMap]
      constructor
      · rintro ⟨kv, hkv, hsel⟩
        obtain ⟨hk, p2, hget, hbeq, hlt⟩ := improvedSel_eq_some prevL kv k hsel
        have hc : kv.2 = c := dictGet?_unique latestL k c hn hL kv hkv hk.symm
        rw [← hk] at hget
        rw [hP] at hget
        injection hget with hget
        subst hget
        rw [hc] at hbeq hlt
        refine ⟨?_, hlt⟩
        intro e
        rw [e, Json.beq_self p] at hbeq
        cases hbeq
      · rintro ⟨hne, hlt⟩
        refine ⟨(k, c), dictGet?_mem latestL k c hL, ?_⟩
        unfold improvedSel
        rw [hP]
        have hb : Json.beq p c = false :=
          (Json.beq_eq_false_iff p c).mpr (fun e => hne e.symm)
        simp [hb, hlt]
    · simp only [List.mem_filterMap]
      constructor
      · rintro ⟨kv, hkv, hsel⟩
        obtain ⟨hk, p2, hget, hbeq, hle⟩ := degradedSel_eq_some prevL kv k hsel
        have hc : kv.2 = c := dictGet?_unique latestL k c hn hL kv hkv hk.symm
        rw [← hk] at hget
        rw [hP] at hget
        injection hget with hget
        subst hget
        rw [hc] at hbeq hle
        refine ⟨?_, hle⟩
        intro e
        rw [e, Json.beq_self p] at hbeq
        cases hbeq
      · rintro ⟨hne, hle⟩
        refine ⟨(k, c), dictGet?_mem latestL k c hL, ?_⟩
        unfold degradedSel
        rw [hP]
        have hb : Json.beq p c = false :=
          (Json.beq_eq_false_iff p c).mpr (fun e => hne e.symm)
        simp [hb, not_lt.mpr hle]
  · intro latestL prevL k h
    rw [classifyDeltas_eq]
    constructor
    · intro hm
      obtain ⟨kv, hkv, hsel⟩ := List.mem_filterMap.mp hm
      obtain ⟨hk, p2, hget, _, _⟩ := improvedSel_eq_some prevL kv k hsel
      rcases h with hnone | hnone
      · exact (dictGet?_eq_none_iff latestL k).mp hnone kv hkv hk.symm
      · rw [← hk, hnone] at hget
        cases hget
    · intro hm
      obtain ⟨kv, hkv, hsel⟩ := List.mem_filterMap.mp hm
      obtain ⟨hk, p2, hget, _, _⟩ := degradedSel_eq_some prevL kv k hsel
      rcases h with hnone | hnone
      · exact (dictGet?_eq_none_iff latestL k).mp hnone kv hkv hk.symm
      · rw [← hk, hnone] at hget
        cases hget

/-- C6 witness: the name X moving WARNING to FAIL is classified degraded. -/
theorem feature_deltas_instance :
    Json.str "X" ∈ (classifyDeltas
      (buildLookup [Json.obj [("name", Json.str "X"), ("status", Json.str "FAIL")]])
      (buildLookup [Json.obj [("name", Json.str "X"), ("status", Json.str "WARNING")]])).2 := by
  have h := (feature_deltas.2.2.1
    (buildLookup [Json.obj [("name", Json.str "X"), ("status", Json.str "FAIL")]])
    (buildLookup [Json.obj [("name", Json.str "X"), ("status", Json.str "WARNING")]])
    (Json.str "X") (Json.str "FAIL") (Json.str "WARNING")
    (feature_deltas.2.1 [Json.obj [("name", Json.str "X"), ("status", Json.str "FAIL")]])
    rfl rfl).2
  apply h.mpr
  refine ⟨?_, by decide⟩
  intro e
  have h2 : ("FAIL" : String) = "WARNING" := by injection e
  exact absurd h2 (by decide)

/-- Bumping a counter changes exactly the bumped name's count, by one. -/
theorem tallyCount_bump (acc : List (Json × Nat)) (k m : Json) :
    tallyCount (bump acc k) m
      = tallyCount acc m + (if Json.beq k m then 1 else 0) := by
  induction acc with
  | nil =>
    by_cases hb : Json.beq k m = true
    · simp [bump, tallyCount, hb]
    · simp [bump, tallyCount, hb]
  | cons kv rest ih =>
    obtain ⟨k0, n0⟩ := kv
    unfold bump
    by_cases hb0 : Json.beq k0 k = true
    · have hk0 : k0 = k := (Json.beq_iff_eq k0 k).mp hb0
      subst hk0
      rw [if_pos hb0]
      by_cases hbm : Json.beq k0 m = true
      · simp [tallyCount, hbm]
      · simp [tallyCount, hbm]
    · rw [if_neg hb0]
      by_cases hbm : Json.beq k0 m = true
      · have hk0m : k0 = m := (Json.beq_iff_eq k0 m).mp hbm
        have hkm : Json.beq k m = false := by
          rw [Json.beq_eq_false_iff]
          intro e
          apply hb0
          apply (Json.beq_iff_eq k0 k).mpr
          rw [hk0m, e]
        simp [tallyCount, hbm, hkm]
      · simp [tallyCount, hbm, ih]

/-- Folding one report's results bumps each matching result's name once. -/
theorem tallyCount_foldl_results (results : List Json) (statusVal : String)
    (acc : List (Json × Nat)) (m : Json) :
    tallyCount (results.foldl
      (fun acc2 r => if resultStatusIs r statusVal then bump acc2 (resultName r) else acc2)
      acc) m
      = tallyCount acc m
        + (results.filter
            (fun r => resultStatusIs r statusVal && Json.beq (resultName r) m)).length := by
  induction results generalizing acc with
  | nil => simp
  | cons r rest ih =>
    rw [List.foldl_cons, ih, List.filter_cons]
    by_cases hs : resultStatusIs r statusVal = true
    · by_cases hn : resultName r = m
      · have hb : Json.beq (resultName r) m = true := (Json.beq_iff_eq _ _).mpr hn
        simp [hs, hb, tallyCount_bump, hn, Json.beq_self]
        omega
      · have hb : Json.beq (resultName r) m = false := (Json.beq_eq_false_iff _ _).mpr hn
        simp [hs, hb, tallyCount_bump, hn]
    · simp [hs]

/-- Folding all reports accumulates the matching results of each. -/
theorem tallyStatus_aux (reports : List Json) (statusVal : String)
    (acc : List (Json × Nat)) (m : Json) :
    tallyCount (reports.foldl
      (fun acc data => (resultsOf data).foldl
        (fun acc2 r => if resultStatusIs r statusVal then bump acc2 (resultName r) else acc2)
        acc) acc) m
      = tallyCount acc m
        + ((reports.flatMap resultsOf).filter
            (fun r => resultStatusIs r statusVal && Json.beq (resultName r) m)).length := by
  induction reports generalizing acc with
  | nil => simp
  | cons d rest ih =>
    rw [List.foldl_cons, ih, tallyCount_foldl_results]
    rw [List.flatMap_cons, List.filter_append, List.length_append]
    omega

/-- The common-issues counter stores, for every name, the number of its
matching occurrences across all loaded reports. -/
theorem tallyCount_tallyStatus (reports : List Json) (statusVal : String) (m : Json) :
    tallyCount (tallyStatus reports statusVal) m = occurrenceCount reports statusVal m := by
  unfold tallyStatus occurrenceCount
  rw [tallyStatus_aux]
  simp [tallyCount]

/-- Inserting an issue whose count matches the filter puts it in front of
every retained element. -/
theorem filter_orderedInsert_count (x : Json × Nat) (l : List (Json × Nat)) (n : Nat)
    (hx : x.2 = n) :
    (List.orderedInsert issueGE x l).filter (fun kv => decide (kv.2 = n))
      = x :: l.filter (fun kv => decide (kv.2 = n)) := by
  induction l with
  | nil => simp [hx]
  | cons y ys ih =>
    by_cases hr : issueGE x y
    · simp [List.orderedInsert, hr, List.filter_cons, hx]
    · have hyn : ¬y.2 = n := by
        intro e
        apply hr
        unfold issueGE
        omega
      simp [List.orderedInsert, hr, List.filter_cons, hyn, ih]

/-- Inserting an issue whose count misses the filter leaves the filter image
unchanged. -/
theorem filter_orderedInsert_count_ne (x : Json × Nat) (l : List (Json × Nat)) (n : Nat)
    (hx : ¬x.2 = n) :
    (List.orderedInsert issueGE x l).filter (fun kv => decide (kv.2 = n))
      = l.filter (fun kv => decide (kv.2 = n)) := by
  induction l with
  | nil => simp [hx]
  | cons y ys ih =>
    by_cases hr : issueGE x y
    · simp [List.orderedInsert, hr, List.filter_cons, hx]
    · simp [List.orderedInsert, hr, List.filter_cons, ih]

/-- Stability of the issue ranking: issues sharing one occurrence count keep
their first-seen order. -/
theorem rankIssues_filter (tally : List (Json × Nat)) (n : Nat) :
    (rankIssues tally).filter (fun kv => decide (kv.2 = n))
      = tally.filter (fun kv => decide (kv.2 = n)) := by
  unfold rankIssues
  induction tally with
  | nil => rfl
  | cons x xs ih =>
    show (List.orderedInsert issueGE x (List.insertionSort issueGE xs)).filter _ = _
    by_cases hx : x.2 = n
    · rw [filter_orderedInsert_count x _ n hx, ih]
      simp [List.filter_cons, hx]
    · rw [filter_orderedInsert_count_ne x _ n hx, ih]
      simp [List.filter_cons, hx]

/-- C7: the common-issues analysis counts, per name, the FAIL (separately
WARNING) occurrences across all loaded reports (a fresh name is appended at
the end of the counter, so counter order is first-seen order); it ranks the
counter entries descending by count, stably, keeping at most the top five;
and the reported rate is occurrences over number of loaded reports as a
percentage, with a name FAIL in 3 of 4 loaded reports reported at 75%. -/
theorem common_issues_ranking :
    (∀ (reports : List Json) (statusVal : String) (nameVal : Json),
      tallyCount (tallyStatus reports statusVal) nameVal
        = occurrenceCount reports statusVal nameVal) ∧
    (∀ (acc : List (Json × Nat)) (k : Json),
      (∀ kv ∈ acc, kv.1 ≠ k) → bump acc k = acc ++ [(k, 1)]) ∧
    (∀ tally : List (Json × Nat), List.Sorted issueGE (rankIssues tally)) ∧
    (∀ tally : List (Json × Nat), List.Perm (rankIssues tally) tally) ∧
    (∀ (tally : List (Json × Nat)) (n : Nat),
      (rankIssues tally).filter (fun kv => decide (kv.2 = n))
        = tally.filter (fun kv => decide (kv.2 = n))) ∧
    (∀ tally : List (Json × Nat),
      topIssues tally = (rankIssues tally).take 5 ∧ (topIssues tally).length ≤ 5) ∧
    (∀ occurrences totalReports : Nat,
      issueRate occurrences totalReports
        = (occurrences : ℚ) / (totalReports : ℚ) * 100) ∧
    (tallyCount
      (tallyStatus
        [Json.obj [("results", Json.arr
          [Json.obj [("name", Json.str "Database File"), ("status", Json.str "FAIL")]])],
         Json.obj [("results", Json.arr
          [Json.obj [("name", Json.str "Database File"), ("status", Json.str "FAIL")]])],
         Json.obj [("results", Json.arr
          [Json.obj [("name", Json.str "Database File"), ("status", Json.str "FAIL")]])],
         Json.obj [("results", Json.arr
          [Json.obj [("name", Json.str "Database File"), ("status", Json.str "OK")]])]]
        "FAIL")
      (Json.str "Database File") = 3 ∧
     issueRate 3 4 = 75) := by
  haveI : IsTotal (Json × Nat) issueGE := ⟨fun a b => Nat.le_total b.2 a.2⟩
  haveI : IsTrans (Json × Nat) issueGE := ⟨fun _ _ _ h1 h2 => le_trans h2 h1⟩
  refine ⟨tallyCount_tallyStatus, ?_, ?_, ?_, rankIssues_filter, ?_, fun _ _ => rfl,
          rfl, by norm_num [issueRate]⟩
  · intro acc k h
    induction acc with
    | nil => rfl
    | cons kv rest ih =>
      obtain ⟨k0, n0⟩ := kv
      have hk0 : k0 ≠ k := h (k0, n0) (List.mem_cons_self _ _)
      have hb : Json.beq k0 k = false := (Json.beq_eq_false_iff k0 k).mpr hk0
      unfold bump
      rw [hb]
      simp only [Bool.false_eq_true, if_false, List.cons_append, List.cons.injEq, true_and]
      exact ih (fun kv hkv => h kv (List.mem_cons_of_mem _ hkv))
  · intro tally
    exact List.sorted_insertionSort issueGE tally
  · intro tally
    exact List.perm_insertionSort issueGE tally
  · intro tally
    refine ⟨rfl, ?_⟩
    unfold topIssues
    rw [List.length_take]
    exact Nat.min_le_left 5 _

/-- C7 witness: bumping a name absent from the counter appends it, and the
counting identity at a concrete empty input. -/
theorem common_issues_ranking_instance :
    tallyCount (tallyStatus [] "FAIL") (Json.str "A")
      = occurrenceCount [] "FAIL" (Json.str "A") ∧
    bump [(Json.str "B", 2)] (Json.str "A")
      = [(Json.str "B", 2), (Json.str "A", 1)] := by
  constructor
  · exact common_issues_ranking.1 [] "FAIL" (Json.str "A")
  · refine common_issues_ranking.2.1 [(Json.str "B", 2)] (Json.str "A") ?_
    intro kv hkv
    rw [List.mem_singleton] at hkv
    subst hkv
    intro e
    have e2 : Json.str "B" = Json.str "A" := e
    have h2 : ("B" : String) = "A" := by injection e2
    exact absurd h2 (by decide)

end AIFS
